import Mathlib

set_option autoImplicit false

/-!
Shallow embedding of the CIEGL22 epigraphy pipeline.

Python strings are modelled as `List Char`; the character predicates
(`isspace`, `isalpha`, `isnumeric`, `isalnum`) are modelled on the ASCII
fragment, which is the alphabet all the relevant data and all concrete
inputs below live in.  Fallible code paths (Python `IndexError`,
`ValueError` from `min([])`) surface as `Option`/`Except` values.
-/

/-- String literal to the character-list representation used throughout. -/
def toL (s : String) : List Char := s.toList

/-- Python `str.isspace`, restricted to the ASCII whitespace characters. -/
def isspacePy (c : Char) : Bool :=
  c = ' ' || c = '\t' || c = '\n' || c = '\r' || c = '\x0b' || c = '\x0c'

/-- Python `str.isalpha` (ASCII fragment). -/
def isalphaPy (c : Char) : Bool := c.isAlpha

/-- Python `str.isnumeric` (ASCII fragment: the decimal digits). -/
def isdigitPy (c : Char) : Bool := c.isDigit

/-- Python indexing `text[i]` for an `Int` index: a negative index wraps
around from the end; an index out of range is `none` (`IndexError`). -/
def pyGetI (l : List Char) (i : Int) : Option Char :=
  if 0 ≤ i then l[i.toNat]?
  else if 0 ≤ i + l.length then l[(i + l.length).toNat]?
  else none

/-- Index of the first element satisfying `p` (Python `find` on a suffix). -/
def findIdxA (p : Char → Bool) : List Char → Option Nat
  | [] => none
  | c :: rest => if p c then some 0 else (findIdxA p rest).map (· + 1)

/-- Python `text.find(ch, start)` (as a predicate search): first index
`≥ start` whose character satisfies `p`; `none` plays the role of `-1`. -/
def findFrom (p : Char → Bool) (text : List Char) (start : Nat) : Option Nat :=
  (findIdxA p (text.drop start)).map (· + start)

/-- Python `text.find(sub)`: index of the leftmost occurrence of the
substring `sub`, `none` for `-1`. -/
def findSub (sub : List Char) : List Char → Option Nat
  | [] => if sub.isEmpty then some 0 else none
  | c :: rest =>
    if sub.isPrefixOf (c :: rest) then some 0 else (findSub sub rest).map (· + 1)

/-- Python `sub in s` (substring containment). -/
def containsSub (sub s : List Char) : Bool := (findSub sub s).isSome

/-- Python `str.strip()`: remove leading and trailing whitespace. -/
def pyStrip (s : List Char) : List Char :=
  ((s.dropWhile isspacePy).reverse.dropWhile isspacePy).reverse

/-- Decimal value of a digit string. -/
def digitsVal (ds : List Char) : Nat :=
  ds.foldl (fun a c => a * 10 + (c.toNat - '0'.toNat)) 0

/-- Python `int(s)`: surrounding whitespace stripped, an optional single
sign, then a nonempty run of decimal digits; everything else raises
`ValueError`, modelled as `none`.  (Underscore digit grouping of Python 3
is not modelled; no input in this development contains an underscore.) -/
def pyInt (s : List Char) : Option Int :=
  match pyStrip s with
  | '-' :: ds =>
    if !ds.isEmpty && ds.all isdigitPy then some (-(digitsVal ds : Int)) else none
  | '+' :: ds =>
    if !ds.isEmpty && ds.all isdigitPy then some ((digitsVal ds : Int)) else none
  | ds =>
    if !ds.isEmpty && ds.all isdigitPy then some ((digitsVal ds : Int)) else none

/-- Python `s.split()` (no argument): split on runs of whitespace,
discarding empty pieces. -/
def pySplit : List Char → List (List Char)
  | [] => []
  | c :: rest =>
    if isspacePy c then pySplit rest
    else
      match rest with
      | [] => [[c]]
      | d :: _ =>
        if isspacePy d then [c] :: pySplit rest
        else
          match pySplit rest with
          | [] => [[c]]
          | w :: ws => (c :: w) :: ws

/-- Python `sep.join(ws)`. -/
def joinWith (sep : List Char) : List (List Char) → List Char
  | [] => []
  | [w] => w
  | w :: ws => w ++ sep ++ joinWith sep ws

/-- Python `" ".join(s.split())`: collapse runs of whitespace to single
spaces and trim the ends. -/
def collapse (s : List Char) : List Char := joinWith [' '] (pySplit s)

/-- Python `s.split(sep)` for a one-character separator class (also
`re.split` over a character class): split at every matching character,
keeping empty pieces. -/
def splitOnPred (p : Char → Bool) : List Char → List (List Char)
  | [] => [[]]
  | c :: rest =>
    let r := splitOnPred p rest
    if p c then [] :: r
    else
      match r with
      | [] => [[c]]
      | w :: ws => (c :: w) :: ws

/-! ## `EDCS_Extract.missing` (illegible-letter placeholders) -/

/-- Whether the optional character is a digit (`text[j].isnumeric()`). -/
def isNumOpt : Option Char → Bool
  | some c => isdigitPy c
  | none => false

/-- `EDCS_Extract.missing(text, i)`.  The second disjunct of the source
reads `text[i].isnumeric` without calling the method: the attribute is
always truthy, so that conjunct is the constant `true` here. -/
def missing (text : List Char) (i : Nat) : Bool :=
  if i + 2 < text.length then
    (pyGetI text i == some '[' && isNumOpt (pyGetI text (i + 1))
      && pyGetI text (i + 2) == some ']')
    || (pyGetI text ((i : Int) - 1) == some '[' && pyGetI text (i + 1) == some ']')
    || (pyGetI text ((i : Int) - 2) == some '['
        && isNumOpt (pyGetI text ((i : Int) - 1)) && pyGetI text i == some ']')
  else false

/-! ## `EDCS_Extract.correct_text` and `remove_superficial_letters` -/

/-- The `while opens != -1 and opens + 1 < len(text)` scan of both span
removers: successive `text.find(ch, opens + 1)` calls.  Each iteration
advances the search start past the found index, so at most
`text.length + 1` iterations can ever happen; the fuel argument
(instantiated with exactly that bound) therefore never runs out. -/
def collectOpensAux (ch : Char) (text : List Char) : Nat → Nat → List Nat
  | 0, _ => []
  | fuel + 1, start =>
    match findFrom (· = ch) text start with
    | none => []
    | some o =>
      if o + 1 < text.length then o :: collectOpensAux ch text fuel (o + 1)
      else []

/-- All opening-marker indices collected by the scan loop. -/
def collectOpens (ch : Char) (text : List Char) : List Nat :=
  collectOpensAux ch text (text.length + 1) 0

/-- Characters emitted by `for j in range(a, b): out += text[j]` (with
`b ≤ text.length` at every call site, and an empty result when `b ≤ a`,
exactly as Python `range`). -/
def emitRange (text : List Char) (a b : Int) : List Char :=
  (text.drop a.toNat).take (b - a).toNat

/-- A `none` span position is Python's `-1` from a failed `find`. -/
def optToPy : Option Nat → Int
  | none => -1
  | some n => n

/-- The emission loop of `correct_text`: for each recorded
`(opening, equals, closing)` triple, emit `text[closing..opening)`, then
the lowercased `text[opening+1..equals)`; afterwards emit the tail from
the last `closing_list` entry plus one. -/
def ctFold (text : List Char) : List (Nat × Option Nat × Option Nat) → Int → List Char
  | [], closing => emitRange text closing text.length
  | (o, eq, cl) :: rest, closing =>
    emitRange text closing o
      ++ (emitRange text ((o : Int) + 1) (optToPy eq)).map Char.toLower
      ++ ctFold text rest (optToPy cl + 1)

/-- `EDCS_Extract.correct_text`. -/
def correct_text (text : List Char) : List Char :=
  let opening_list := collectOpens '<' text
  let triples := opening_list.map fun o =>
    (o, findFrom (· = '=') text o, findFrom (· = '>') text o)
  ctFold text triples 0

/-- The emission loop of `remove_superficial_letters`. -/
def rsFold (text : List Char) : List (Nat × Option Nat) → Int → List Char
  | [], closing => emitRange text closing text.length
  | (o, cl) :: rest, closing =>
    emitRange text closing o ++ rsFold text rest (optToPy cl + 1)

/-- `EDCS_Extract.remove_superficial_letters`. -/
def remove_superficial_letters (text : List Char) : List Char :=
  let opening_list := collectOpens '{' text
  rsFold text (opening_list.map fun o => (o, findFrom (· = '}') text o)) 0

/-! ## `EDCS_Extract.get_cleantext` -/

/-- The final filtering loop of `get_cleantext`: keep `text[i]` when it is
whitespace, alphabetic, or part of an illegible-letter placeholder.  The
loop walks the suffix of `text` starting at index `i`, so the characters
visited are exactly `text[i]` for `i` in `range(len(text))`. -/
def filterGo (text : List Char) : List Char → Nat → List Char
  | [], _ => []
  | c :: rest, i =>
    (if isspacePy c || isalphaPy c || missing text i then [c] else [])
      ++ filterGo text rest (i + 1)

/-- The whole filtering loop of `get_cleantext`. -/
def filterKeep (text : List Char) : List Char := filterGo text text 0

/-- `EDCS_Extract.get_cleantext`.  The `=` and `{` probes run on the
original text; the span removers run in sequence when they fire. -/
def get_cleantext (text : List Char) : List Char :=
  let equals := findIdxA (· = '=') text
  let curly := findIdxA (· = '{') text
  let t1 := if equals.isSome then correct_text text else text
  let t2 := if curly.isSome then remove_superficial_letters t1 else t1
  collapse (filterKeep t2)

/-! ## `EDCS_Extract.get_lat` / `get_long` / `get_findspot` / `get_province` -/

/-- Result of `get_lat`/`get_long`: the NaN sentinel for a missing tag, a
successfully parsed float (abstracted by its literal, whose numeric value
is irrelevant here), the raw string when `float()` raises, or Python
`None` when the scan loop runs off the end of the string. -/
inductive CoordResult where
  | nanVal
  | floatVal (lit : List Char)
  | strVal (lit : List Char)
  | nothing
deriving DecidableEq, Repr

/-- Whether `float(s)` succeeds, for strings over the alphabet
digits/`.`/`-` (the only strings ever passed to it here): an optional
leading minus, at most one dot, at least one digit, no interior minus. -/
def isFloatLit (s : List Char) : Bool :=
  let t := match s with | '-' :: r => r | r => r
  !t.isEmpty && t.all (fun c => isdigitPy c || c = '.')
    && t.count '.' ≤ 1 && t.any isdigitPy

/-- The accumulation loop shared by `get_lat` and `get_long`: append
digits, dots and minus signs; on the first other character return the
`float()` attempt; if the string ends first, fall off the loop (`None`). -/
def coordScan : List Char → List Char → CoordResult
  | [], _ => .nothing
  | c :: rest, result =>
    if isdigitPy c || c = '.' || c = '-' then coordScan rest (result ++ [c])
    else if isFloatLit result then .floatVal result else .strVal result

/-- `EDCS_Extract.get_lat`. -/
def get_lat (place : List Char) : CoordResult :=
  match findSub (toL "latitude=") place with
  | none => .nanVal
  | some start => coordScan (place.drop (start + 9)) []

/-- `EDCS_Extract.get_long`. -/
def get_long (place : List Char) : CoordResult :=
  match findSub (toL "longitude=") place with
  | none => .nanVal
  | some start => coordScan (place.drop (start + 10)) []

/-- `EDCS_Extract.get_findspot`: `none` models the implicit Python `None`
when no closing `<` follows the opening `>`. -/
def get_findspot (place : List Char) : Option (List Char) :=
  match findIdxA (· = '>') place with
  | none => some (toL "error")
  | some start =>
    let rest := place.drop (start + 1)
    match findIdxA (· = '<') rest with
    | some k => some (rest.take k)
    | none => none

/-- Characters kept by `get_province` (alphanumeric, whitespace, slash). -/
def provChar (c : Char) : Bool := c.isAlphanum || isspacePy c || c = '/'

/-- `EDCS_Extract.get_province`: both the early return and the
fall-through return yield the run of allowed characters after the tag. -/
def get_province (place : List Char) : List Char :=
  match findSub (toL "provinz=") place with
  | none => toL "error"
  | some start => (place.drop (start + 8)).takeWhile provChar

/-! ## `EDCS_Extract.search_province` -/

/-- Python indexing with an `Int` index, for any element type. -/
def pyIdx {α : Type} (l : List α) (i : Int) : Option α :=
  if 0 ≤ i then l[i.toNat]?
  else if 0 ≤ i + l.length then l[(i + l.length).toNat]?
  else none

/-- The `province_list` constant of `search_province`, transcribed verbatim.
In the source, `'Aquitanica' 'Cyprus'` are adjacent string literals, which
Python concatenates into the single element `"AquitanicaCyprus"`. -/
def province_list : List (List Char) :=
  [toL "Achaia", toL "Baetica", toL "Galatia", toL "Mauretania Tingitana",
   toL "Regnum Bospori", toL "Aegyptus", toL "Barbaricum", toL "Raetia",
   toL "Gallia Narbonensis", toL "Mesopotamia", toL "Roma", toL "Asia",
   toL "Aemilia / Regio VIII", toL "Belgica", toL "Germania inferior",
   toL "Moesia inferior", toL "Samnium / Regio IV", toL "Armenia",
   toL "Africa proconsularis", toL "Britannia", toL "Germania superior",
   toL "Moesia superior", toL "Sardinia", toL "Alpes Cottiae", toL "Dacia",
   toL "Bruttium et Lucania / Regio III", toL "Hispania citerior",
   toL "Noricum", toL "Sicilia", toL "Alpes Graiae", toL "Cappadocia",
   toL "Italia", toL "Numidia", toL "Syria", toL "Alpes Maritimae", toL "Arabia",
   toL "Cilicia", toL "Latium et Campania / Regio I", toL "Palaestina",
   toL "Thracia", toL "Alpes Poeninae", toL "Corsica", toL "Macedonia",
   toL "Liguria / Regio IX", toL "Pannonia inferior", toL "Dalmatia",
   toL "Transpadana / Regio XI", toL "Apulia et Calabria / Regio II",
   toL "Creta et Cyrenaica", toL "Lugudunensis", toL "Pannonia superior",
   toL "Umbria / Regio VI", toL "Aquitania", toL "AquitanicaCyprus",
   toL "Lusitania", toL "Picenum / Regio V", toL "Pontus et Bithynia",
   toL "Venetia et Histria / Regio X", toL "Provincia incerta",
   toL "Lycia et Pamphylia", toL "Etruria / Regio VII",
   toL "Mauretania Caesariensis", toL "Aquitani(c)a"]

/-- `EDCS_Extract.search_province`: first fragment that is a known
province name, else the first fragment one of whose `|`-separated parts,
stripped, is a known province name (the whole fragment is returned), else
`"n/a"`. -/
def search_province : List (List Char) → List Char
  | [] => toL "n/a"
  | elem :: rest =>
    if province_list.contains elem then elem
    else if elem.contains '|'
        && (splitOnPred (· = '|') elem).any (fun part => province_list.contains (pyStrip part))
    then elem
    else search_province rest

/-! ## `EDCS_Extract.get_insc_dict`, per-inscription body -/

/-- `keyword_list` of `get_insc_dict`, verbatim (including the trailing
space of `'litterae erasae '`). -/
def keyword_list : List (List Char) :=
  [toL "carmina", toL "signacula", toL "Augusti/Augustae",
   toL "praenomen et nomen", toL "defixiones", toL "signacula medicorum",
   toL "liberti/libertae", toL "reges", toL "diplomata militaria",
   toL "termini", toL "milites", toL "sacerdotes christiani",
   toL "inscriptiones christianae", toL "tesserae nummulariae",
   toL "mulieres", toL "sacerdotes pagani", toL "leges",
   toL "tituli fabricationis", toL "nomen singulare", toL "servi/servae",
   toL "litterae erasae ", toL "tituli honorarii",
   toL "officium/professio", toL "seviri Augustales",
   toL "litterae in litura", toL "tituli operum", toL "ordo decurionum",
   toL "tria nomina", toL "miliaria", toL "tituli possessionis",
   toL "ordo equester", toL "viri", toL "senatus consulta", toL "tituli sacri",
   toL "ordo senatorius", toL "sigilla impressa", toL "tituli sepulcrales"]

/-- `material_list` of `get_insc_dict`, verbatim. -/
def material_list : List (List Char) :=
  [toL "aes", toL "cyprum", toL "lignum", toL "os", toL "sucineus", toL "argentum",
   toL "ferrum", toL "musivum", toL "plumbum", toL "tectorium", toL "aurum",
   toL "gemma", toL "opus figlinae", toL "rupes", toL "textum", toL "corium",
   toL "lapis", toL "orichalcum", toL "steatitis", toL "vitrum"]

/-- State of the first classification loop of `get_insc_dict`. -/
structure ScanSt where
  edcs : Option (List Char × Nat)
  place : Option (List Char × Nat)
  keywords : List Char
  keywordsI : Option Nat
  material : List Char
  materialI : Option Nat
deriving DecidableEq, Repr

def initScan : ScanSt :=
  { edcs := none, place := none, keywords := toL "n/a", keywordsI := none,
    material := toL "n/a", materialI := none }

/-- The inner loop of the `';' in insc[i]` branch: each semicolon part in
one of the two vocabularies records the joined fragment. -/
def scanSemi (st : ScanSt) (i : Nat) (elements : List (List Char)) : ScanSt :=
  elements.foldl (fun st elem =>
    if keyword_list.contains elem then
      { st with keywords := joinWith (toL ", ") elements, keywordsI := some i }
    else if material_list.contains elem then
      { st with material := joinWith (toL ", ") elements, materialI := some i }
    else st) st

/-- One iteration of the classification loop (the `if`/`elif` chain). -/
def scanStep (st : ScanSt) (i : Nat) (frag : List Char) : ScanSt :=
  if st.edcs.isNone && frag.take 5 == toL "EDCS-" then
    { st with edcs := some (frag, i) }
  else if frag.take 4 == toL "<!--" then
    { st with place := some (frag, i) }
  else if keyword_list.contains frag then
    { st with keywords := frag, keywordsI := some i }
  else if material_list.contains frag then
    { st with material := frag, materialI := some i }
  else if frag.contains ';' then
    scanSemi st i (splitOnPred (· = ';') frag)
  else st

/-- The whole classification loop over the fragment list. -/
def scanFrags (insc : List (List Char)) : ScanSt :=
  insc.enum.foldl (fun st p => scanStep st p.1 p.2) initScan

/-- `re.split(r'[,;:]', number)`. -/
def splitRegexDates (s : List Char) : List (List Char) :=
  splitOnPred (fun c => c = ',' || c = ';' || c = ':') s

/-- Deduplication via `list(dict.fromkeys(nums))`: keep first occurrences. -/
def dedupAux (seen : List (List Char)) : List (List Char) → List (List Char)
  | [] => []
  | x :: rest =>
    if seen.contains x then dedupAux seen rest
    else x :: dedupAux (seen ++ [x]) rest

def dedupKeepFirst (l : List (List Char)) : List (List Char) := dedupAux [] l

/-- The `nums` collection of the odd-`k ≥ 5` date branch: every stripped
fragment between index 1 and the identifier, appended once per numeric
character it contains, then deduplicated.  (The index accesses are in
range whenever `k` really is the identifier's index; a hypothetical
out-of-range access contributes nothing.) -/
def collectNums (insc : List (List Char)) (k : Nat) : List (List Char) :=
  dedupKeepFirst ((List.range' 1 (k - 1)).flatMap fun j =>
    match pyIdx insc (j : Int) with
    | none => []
    | some e =>
      let elem := pyStrip e
      (elem.filter isdigitPy).map fun _ => elem)

/-- The inner recovery loop over `re.split` parts: parse parts in order,
stopping (with the error flag) at the first failing part. -/
def parseParts : List (List Char) → Bool × List Int
  | [] => (false, [])
  | p :: rest =>
    match pyInt p with
    | some v =>
      let er := parseParts rest
      (er.1, v :: er.2)
    | none => (true, [])

/-- The date-parsing loop of the odd-`k ≥ 5` branch: parse each token as
an integer, on failure split it on comma/semicolon/colon and parse the
parts; the error flag is sticky.  (The `TypeError` handler in the source
is dead: `re.split` never raises it on a string.) -/
def parseDates : List (List Char) → Bool × List Int
  | [] => (false, [])
  | n :: rest =>
    let tail := parseDates rest
    match pyInt n with
    | some v => (tail.1, v :: tail.2)
    | none =>
      let er := parseParts (splitRegexDates n)
      (er.1 || tail.1, er.2 ++ tail.2)

/-- Step 2 of `get_insc_dict`: publication and date range from the
identifier position `k`.  In the `k = 3` branch a failed parse only sets
the (never consulted) `error` flag, so `publication` keeps `insc[0]` and
the failing time field stays NaN (`none`).  In the odd-`k ≥ 5` branch an
error sets `publication` to `"error"`; otherwise `min(dates)`/`max(dates)`
are computed into the local variables `date_from`/`date_to`, which are
never read again — `time_from`/`time_to` remain NaN (with `min([])`
raising `ValueError` when no date token was found). -/
def dateStage (insc : List (List Char)) (k : Nat) :
    Except Unit (List Char × Option Int × Option Int) :=
  if k = 1 then
    match pyIdx insc 0 with
    | none => .error ()
    | some p => .ok (p, none, none)
  else if k = 3 then
    match pyIdx insc 0, pyIdx insc 1, pyIdx insc 2 with
    | some p, some f1, some f2 => .ok (p, pyInt (collapse f1), pyInt (collapse f2))
    | _, _, _ => .error ()
  else if 5 ≤ k ∧ k % 2 = 1 then
    match pyIdx insc 0 with
    | none => .error ()
    | some p =>
      let ed := parseDates (collectNums insc k)
      if ed.1 then .ok (toL "error", none, none)
      else
        match ed.2 with
        | [] => .error ()
        | _ :: _ => .ok (p, none, none)
  else .ok (toL "error", none, none)

/-- Step 3 of `get_insc_dict`: select the text fragment (index may be the
Python negative `-1`, wrapping to the final fragment). -/
def textStage (insc : List (List Char)) (st : ScanSt) : Option (Int × List Char) :=
  match st.keywordsI with
  | some k => (pyIdx insc ((k : Int) - 1)).map fun t => ((k : Int) - 1, t)
  | none =>
    match st.materialI with
    | some m => (pyIdx insc ((m : Int) - 1)).map fun t => ((m : Int) - 1, t)
    | none =>
      match st.place with
      | some pr => (pyIdx insc ((pr.2 : Int) + 2)).map fun t => ((pr.2 : Int) + 2, t)
      | none => (pyIdx insc (-1)).map fun t => ((-1 : Int), t)

/-- Step 4 of `get_insc_dict`: findspot, coordinates and province.  In the
comment-fragment branch these come from the tag parsers; otherwise the
province is looked up in the fragment list, the fragment before the text
fragment becomes the findspot (when the list has more than one element;
`np.isfinite(text_i)` always holds at this point), and the double-check
loop resets the findspot to `"n/a"` whenever some fragment equals it at a
position other than `findspot_i` (for a negative `findspot_i` this always
fires, the enumeration index being non-negative).  When `findspot_i`
stays NaN the `idx != findspot_i` comparison is always true. -/
def findspotStage (insc : List (List Char)) (placeStr : List Char) (ti : Int) :
    Except Unit ((Option (List Char)) × CoordResult × CoordResult × List Char) :=
  if containsSub (toL "<!--") placeStr then
    .ok (get_findspot placeStr, get_lat placeStr, get_long placeStr, get_province placeStr)
  else
    let prov := search_province insc
    if 1 < insc.length then
      match pyIdx insc (ti - 1) with
      | none => .error ()
      | some fs0 =>
        let fs1 := insc.enum.foldl (fun fs p =>
          if fs == p.2 && (p.1 : Int) != (ti - 1) then toL "n/a" else fs) fs0
        .ok (some fs1, .nanVal, .nanVal, prov)
    else
      let fs1 := insc.enum.foldl (fun fs p =>
        if fs == p.2 then toL "n/a" else fs) (toL "n/a")
      .ok (some fs1, .nanVal, .nanVal, prov)

/-- One inscription record, with the fields of the dictionary built by
`get_insc_dict` (`none` models NaN for the time fields, a `none` findspot
models Python `None` from `get_findspot`). -/
structure Insc where
  publication : List Char
  edcs_id : List Char
  time_from : Option Int
  time_to : Option Int
  province : List Char
  findspot : Option (List Char)
  find_lat : CoordResult
  find_long : CoordResult
  text : List Char
  cleantext : List Char
  keywords : List Char
  material : List Char
  dump : List (List Char)
deriving DecidableEq, Repr

/-- Outcome of processing one fragment list: skipped by a `continue`,
crashed with an uncaught exception, or a completed record. -/
inductive ExtractResult where
  | skipped
  | crashed
  | ok (r : Insc)
deriving DecidableEq, Repr

/-- The body of the `for insc in inscriptions` loop of
`EDCS_Extract.get_insc_dict`, for a single fragment list. -/
def processInsc (insc : List (List Char)) : ExtractResult :=
  let st := scanFrags insc
  match st.edcs with
  | none => .skipped
  | some (eid, k) =>
    match dateStage insc k with
    | .error _ => .crashed
    | .ok (pub, tf, tt) =>
      match textStage insc st with
      | none => .crashed
      | some (ti, text) =>
        let cleantext := if text = toL "n/a" then toL "n/a" else get_cleantext text
        let placeStr := match st.place with | none => toL "n/a" | some pr => pr.1
        match findspotStage insc placeStr ti with
        | .error _ => .crashed
        | .ok (fs0, flat, flong, prov) =>
          let fs := if fs0 == some (toL "?") || fs0 == some (toL "") then some (toL "n/a") else fs0
          if placeStr = toL "n/a" ∧ st.keywords = toL "n/a" ∧ st.material = toL "n/a"
              ∧ fs = some (toL "n/a") ∧ prov = toL "n/a" ∧ tf = none ∧ tt = none
          then .skipped
          else .ok {
            publication := pub, edcs_id := eid, time_from := tf, time_to := tt,
            province := prov, findspot := fs, find_lat := flat, find_long := flong,
            text := text, cleantext := cleantext, keywords := st.keywords,
            material := st.material, dump := insc }

/-- Field accessors on extraction outcomes (for stating concrete runs). -/
def resPublication : ExtractResult → Option (List Char)
  | .ok r => some r.publication
  | _ => none

def resTimeFrom : ExtractResult → Option (Option Int)
  | .ok r => some r.time_from
  | _ => none

def resTimeTo : ExtractResult → Option (Option Int)
  | .ok r => some r.time_to
  | _ => none

def resKeywords : ExtractResult → Option (List Char)
  | .ok r => some r.keywords
  | _ => none

def resMaterial : ExtractResult → Option (List Char)
  | .ok r => some r.material
  | _ => none

/-! ## `Find_Migrants.get_toponyms` -/

def isVowel (c : Char) : Bool :=
  c = 'a' || c = 'e' || c = 'i' || c = 'o' || c = 'u'

/-- Python slice `l[:j]` for an `Int` bound: a negative bound counts from
the end (clamped at zero). -/
def pySliceTo (l : List Char) (j : Int) : List Char :=
  if 0 ≤ j then l.take j.toNat else l.take (l.length - (-j).toNat)

/-- The `while location[i - 1] in vowels` loop of `get_toponyms`: emit
`location[:i - 1] + "ensis"` and decrement `i` while the preceding
character is a vowel.  `i` may go negative, whereupon Python indexing
wraps around from the end; once `i - 1` drops below `-len(location)` the
access raises `IndexError` (`.error`).  `i` strictly decreases and the
access fails after at most `2·len + 2` steps, so the fuel (always
instantiated with `2·len + 4`) never runs out. -/
def vowelScan (loc : List Char) : Nat → Int → Except Unit (List (List Char))
  | 0, _ => .error ()
  | fuel + 1, i =>
    match pyGetI loc (i - 1) with
    | none => .error ()
    | some c =>
      if isVowel c then
        (vowelScan loc fuel (i - 1)).map fun rest =>
          (pySliceTo loc (i - 1) ++ toL "ensis") :: rest
      else .ok []

/-- The per-word body of `Find_Migrants.get_toponyms`: scan the word from
the end; at the first vowel, at offset `i` from the start, stop if
`i ≤ 2`, else emit `word[:i] + "ensis"` and run the backward vowel loop. -/
def toponymsOfWord (location : List Char) : Except Unit (List (List Char)) :=
  match findIdxA isVowel location.reverse with
  | none => .ok []
  | some index =>
    let i : Nat := location.length - index - 1
    if i ≤ 2 then .ok []
    else
      (vowelScan location (2 * location.length + 4) (i : Int)).map
        fun rest => (location.take i ++ toL "ensis") :: rest

/-- All candidates of one `placenames` entry: the words in order, each
contributing its candidates. -/
def toponymsOfWords : List (List Char) → Except Unit (List (List Char))
  | [] => .ok []
  | w :: ws => do
    let a ← toponymsOfWord w
    let b ← toponymsOfWords ws
    .ok (a ++ b)

/-- One iteration of the `get_toponyms` row loop: split the `placenames`
cell on whitespace and join all candidates with `", "`. -/
def get_toponyms_entry (elem : List Char) : Except Unit (List Char) :=
  (toponymsOfWords (pySplit elem)).map (joinWith (toL ", "))

/-! ## `Find_Migrants.search_toponyms` -/

/-- One EDCS row as `search_toponyms` sees it: the identifier, the
`cleantext` cell (`none` models a non-string NaN cell), and the remaining
columns, which are copied verbatim into a match. -/
structure ERow where
  eid : List Char
  cleantext : Option (List Char)
  rest : List (List Char)
deriving DecidableEq, Repr

/-- One Pleiades row as `search_toponyms` sees it (`none` toponyms models
a non-string NaN cell; the coordinate cells are carried verbatim). -/
structure TRow where
  toponyms : Option (List Char)
  title : List Char
  reprLat : List Char
  reprLong : List Char
  reprLatLong : List Char
  path : List Char
  pid : List Char
deriving DecidableEq, Repr

/-- A row of the migrants dataframe: the copied EDCS row plus the origin
columns and the `migrant = 1` marker. -/
structure MigRec where
  src : ERow
  origo : List Char
  origo_lat : List Char
  origo_long : List Char
  origo_LatLong : List Char
  path : List Char
  pid : List Char
  migrant : Nat
deriving DecidableEq, Repr

def mkMig (e : ERow) (t : TRow) : MigRec :=
  { src := e, origo := t.title, origo_lat := t.reprLat, origo_long := t.reprLong,
    origo_LatLong := t.reprLatLong, path := t.path, pid := t.pid, migrant := 1 }

/-- The matches contributed by one Pleiades row: skipped entirely when the
`toponyms` cell is not a string or its whole comma-joined text is shorter
than 6; otherwise every comma-separated, stripped candidate is tested by
substring containment against every record's cleantext. -/
def rowMigrants (edcs : List ERow) (t : TRow) : List MigRec :=
  match t.toponyms with
  | none => []
  | some tops =>
    if tops.length < 6 then []
    else
      ((splitOnPred (· = ',') tops).map pyStrip).flatMap fun top =>
        edcs.filterMap fun e =>
          match e.cleantext with
          | none => none
          | some text => if containsSub top text then some (mkMig e t) else none

/-- All matches of `Find_Migrants.search_toponyms` before the final
`drop_duplicates`. -/
def searchToponymsRaw (edcs : List ERow) (toponyms : List TRow) : List MigRec :=
  toponyms.flatMap (rowMigrants edcs)

/-- `drop_duplicates(subset=['edcs-id', 'origo_LatLong'])`: keep the first
row of each key. -/
def dedupMigAux (seen : List (List Char × List Char)) : List MigRec → List MigRec
  | [] => []
  | m :: rest =>
    if seen.contains (m.src.eid, m.origo_LatLong) then dedupMigAux seen rest
    else m :: dedupMigAux (seen ++ [(m.src.eid, m.origo_LatLong)]) rest

/-- `Find_Migrants.search_toponyms`. -/
def search_toponyms (edcs : List ERow) (toponyms : List TRow) : List MigRec :=
  dedupMigAux [] (searchToponymsRaw edcs toponyms)

/-! ## `Analyse_Inscriptions.ignore_duplicates` -/

/-- One row of the analysis dataframe, with the columns
`ignore_duplicates` touches.  `distance` carries the numeric value of the
`distance` column (every row examined below has a numeric distance, so
the NaN case needs no separate representation here). -/
structure ARow where
  index : Nat
  eid : List Char
  migrant : Nat
  distance : Int
  ignore : Nat
deriving DecidableEq, Repr

/-- Lexicographic comparison of identifier strings, for `sort_values`. -/
def lexLt : List Char → List Char → Bool
  | [], [] => false
  | [], _ :: _ => true
  | _ :: _, [] => false
  | a :: as, b :: bs => if a < b then true else if b < a then false else lexLt as bs

/-- Insert into a list sorted by identifier, after equal keys (stable). -/
def insSorted (x : Nat × ARow) : List (Nat × ARow) → List (Nat × ARow)
  | [] => [x]
  | y :: ys => if lexLt x.2.eid y.2.eid then x :: y :: ys else y :: insSorted x ys

/-- `edcs.sort_values(by='edcs-id')`: rows reordered by identifier, the
index labels unchanged.  (The dataframe of the run below is already in
identifier order, so the sorting kind is immaterial.) -/
def sortByEid (df : List (Nat × ARow)) : List (Nat × ARow) :=
  df.foldl (fun acc x => insSorted x acc) []

/-- The duplicate-gathering `while` loops: walk positionally from `pos` in
steps of `step` while the identifier still matches, collecting
`(Index, distance)` pairs.  A positional access out of range raises
`IndexError` (`.error`); a negative position wraps around from the end,
exactly as `.iloc` does.  The walk moves strictly away from its start and
crashes after at most `len + 1` steps, so the fuel (instantiated with
`len + 2`) never runs out. -/
def gatherDup (rows : List (Nat × ARow)) (eid : List Char) (step : Int) :
    Nat → Int → Except Unit (List (Nat × Int))
  | 0, _ => .error ()
  | fuel + 1, pos =>
    match pyIdx rows pos with
    | none => .error ()
    | some pr =>
      if pr.2.eid = eid then
        (gatherDup rows eid step fuel (pos + step)).map fun rest =>
          (pr.2.index, pr.2.distance) :: rest
      else .ok []

/-- `edcs.at[i, 'ignore'] = 1` for the row labelled `i`. -/
def setIgnoreAt (rows : List (Nat × ARow)) (lbl : Nat) : List (Nat × ARow) :=
  rows.map fun pr => if pr.1 = lbl then (pr.1, { pr.2 with ignore := 1 }) else pr

/-- `min(distances)` on a nonempty list (head and tail). -/
def minList (d : Int) (ds : List Int) : Int := ds.foldl min d

/-- Python `list.index(v)`: position of the first occurrence. -/
def firstIdxOf (v : Int) : List Int → Nat
  | [] => 0
  | x :: rest => if x = v then 0 else firstIdxOf v rest + 1

/-- The body of the `for idx, elem in edcs.iterrows()` loop of
`ignore_duplicates`, for one row: when the row is migrant-flagged, gather
the duplicate group by walking backward and forward **from the row's index
label used as a position**, then mark every non-minimal group member —
via `edcs.at[i, 'ignore']` where `i` is the *enumeration counter* over the
gathered group, i.e. the rows *labelled* `0, 1, 2, …` get marked.  Only
the `ignore` column is ever written, and it is never read back, so the
loop reads row data from the static `sorted` snapshot while the marks
accumulate in `acc`. -/
def markDup (sorted : List (Nat × ARow)) (acc : List (Nat × ARow)) (entry : Nat × ARow) :
    Except Unit (List (Nat × ARow)) :=
  if entry.2.migrant = 1 then do
    let idx : Int := entry.1
    let back ← gatherDup sorted entry.2.eid (-1) (sorted.length + 2) (idx - 1)
    let fwd ← gatherDup sorted entry.2.eid 1 (sorted.length + 2) (idx + 1)
    let indexes := entry.2.index :: (back.map Prod.fst ++ fwd.map Prod.fst)
    let distances := entry.2.distance :: (back.map Prod.snd ++ fwd.map Prod.snd)
    if 1 < indexes.length then
      let shortest := minList entry.2.distance (back.map Prod.snd ++ fwd.map Prod.snd)
      let mIdx := firstIdxOf shortest distances
      .ok (((List.range indexes.length).filter (· ≠ mIdx)).foldl setIgnoreAt acc)
    else .ok acc
  else .ok acc

/-- `Analyse_Inscriptions.ignore_duplicates`. -/
def ignore_duplicates (df : List (Nat × ARow)) : Except Unit (List (Nat × ARow)) :=
  let sorted := sortByEid (df.map fun pr => (pr.1, { pr.2 with ignore := 0 }))
  sorted.foldlM (fun acc entry => markDup sorted acc entry) sorted

/-- The `ignore` flag of the row labelled `lbl` in the resulting frame. -/
def ignoreOfLabel (res : Except Unit (List (Nat × ARow))) (lbl : Nat) : Option Nat :=
  match res with
  | .error _ => none
  | .ok rows => (rows.find? (fun pr => pr.1 = lbl)).map fun pr => pr.2.ignore

/-! ## Concrete inputs used in the claim theorems -/

/-- The FieldExtractor example fragment list (identifier at index 3). -/
def c8insc : List (List Char) :=
  [toL "PubX", toL "120", toL "180", toL "EDCS-000001", toL "someword", toL "vir"]

/-- A fragment list with the identifier at odd position 5 and four
parseable date tokens. -/
def c2insc : List (List Char) :=
  [toL "Pub", toL "100", toL "200", toL "150", toL "175", toL "EDCS-5",
   toL "text", toL "viri"]

/-- A fragment list with the identifier at position 3 whose first date
token does not parse as an integer. -/
def c6insc : List (List Char) :=
  [toL "Pub", toL "xx", toL "180", toL "EDCS-1", toL "lapis"]

/-- A fragment list with the identifier at position 3 used as a witness. -/
def c8winsc : List (List Char) :=
  [toL "P", toL "1", toL "2", toL "EDCS-7", toL "aes"]

/-- The record extracted from `c8winsc`. -/
def c8witrec : Insc :=
  { publication := toL "P", edcs_id := toL "EDCS-7", time_from := some 1,
    time_to := some 2, province := toL "n/a", findspot := some (toL "2"),
    find_lat := .nanVal, find_long := .nanVal, text := toL "EDCS-7",
    cleantext := toL "EDCS", keywords := toL "n/a", material := toL "aes",
    dump := [toL "P", toL "1", toL "2", toL "EDCS-7", toL "aes"] }

/-- Five analysis rows in identifier order, labelled 0–4: a group of three
migrant-flagged records sharing identifier `"X"` with distances 50, 12,
30, surrounded by two unrelated non-migrant records. -/
def c1df : List (Nat × ARow) :=
  [(0, { index := 0, eid := toL "A", migrant := 0, distance := 999, ignore := 0 }),
   (1, { index := 1, eid := toL "X", migrant := 1, distance := 50, ignore := 0 }),
   (2, { index := 2, eid := toL "X", migrant := 1, distance := 12, ignore := 0 }),
   (3, { index := 3, eid := toL "X", migrant := 1, distance := 30, ignore := 0 }),
   (4, { index := 4, eid := toL "Z", migrant := 0, distance := 888, ignore := 0 })]

/-- A single EDCS row whose cleantext contains `"xy"` but not `"abc"`. -/
def c4edcs : List ERow :=
  [{ eid := toL "EDCS-9", cleantext := some (toL "wxyz"), rest := [] }]

/-- A Pleiades row whose joined toponym cell `"abc, xy"` has length 7 and
contains the length-2 candidate `"xy"`. -/
def c4trow : TRow :=
  { toponyms := some (toL "abc, xy"), title := toL "P", reprLat := toL "1.0",
    reprLong := toL "2.0", reprLatLong := toL "1.0,2.0", path := toL "/p",
    pid := toL "9" }

/-- The same row with a joined toponym cell shorter than 6. -/
def c4shortRow : TRow :=
  { c4trow with toponyms := some (toL "abcd") }

/-- The same row with a non-string (NaN) toponym cell. -/
def c4noneRow : TRow :=
  { c4trow with toponyms := none }

/-- Decidable equality of `Except` values (for evaluating concrete runs). -/
instance {ε α : Type} [DecidableEq ε] [DecidableEq α] : DecidableEq (Except ε α) := fun
  | .error e, .error f =>
    if h : e = f then .isTrue (by rw [h])
    else .isFalse (by intro hh; cases hh; exact h rfl)
  | .error _, .ok _ => .isFalse (by intro hh; cases hh)
  | .ok _, .error _ => .isFalse (by intro hh; cases hh)
  | .ok a, .ok b =>
    if h : a = b then .isTrue (by rw [h])
    else .isFalse (by intro hh; cases hh; exact h rfl)

/-! # Theorems -/

/-! ## Helper lemmas -/

theorem coordScan_all_allowed (l : List Char) :
    (∀ c ∈ l, (isdigitPy c || c = '.' || c = '-') = true) →
    ∀ acc, coordScan l acc = .nothing := by
  induction l with
  | nil => intro _ _; rfl
  | cons c rest ih =>
    intro h acc
    have hc := h c (List.mem_cons_self c rest)
    simp only [coordScan, hc, if_pos]
    exact ih (fun d hd => h d (List.mem_cons_of_mem c hd)) (acc ++ [c])

theorem findIdxA_eq_none_iff (p : Char → Bool) (l : List Char) :
    findIdxA p l = none ↔ ∀ c ∈ l, p c = false := by
  induction l with
  | nil => simp [findIdxA]
  | cons c rest ih =>
    by_cases hc : p c
    · simp [findIdxA, hc]
    · simp only [findIdxA, if_neg hc, Option.map_eq_none', ih, List.mem_cons]
      constructor
      · rintro h d (rfl | hd)
        · exact Bool.eq_false_iff.2 hc
        · exact h d hd
      · intro h d hd
        exact h d (Or.inr hd)

theorem findFrom_none_mono (p : Char → Bool) (text : List Char) {s o : Nat}
    (hs : findFrom p text s = none) (hso : s ≤ o) : findFrom p text o = none := by
  simp only [findFrom, Option.map_eq_none'] at hs ⊢
  rw [findIdxA_eq_none_iff] at hs ⊢
  intro c hc
  exact hs c (List.drop_subset_drop_left text hso hc)

/-! ## Claims C1, C2, C6 (concrete failing runs) -/

/-- C1: `ignore_duplicates` is claimed to keep exactly the minimum-distance
member of each migrant group and to mark the other members ignored.  On
the five-row frame `c1df` (group "X" with distances 50, 12, 30) the code
instead marks the rows *labelled* 0, 1, 2 — the enumeration counter over
the gathered group is used as the dataframe label in `edcs.at[i,'ignore']`
— so the minimum-distance record (label 2, distance 12) is itself marked
ignored, the distance-30 duplicate (label 3) is kept, and the unrelated
record labelled 0 is marked as well. -/
theorem C1_ignore_duplicates_failing_run :
    ignoreOfLabel (ignore_duplicates c1df) 2 = some 1
    ∧ ignoreOfLabel (ignore_duplicates c1df) 3 = some 0
    ∧ ignoreOfLabel (ignore_duplicates c1df) 1 = some 1
    ∧ ignoreOfLabel (ignore_duplicates c1df) 0 = some 1
    ∧ ignoreOfLabel (ignore_duplicates c1df) 4 = some 0 := by decide

/-- C2: for an identifier at odd position `k ≥ 5` the date tokens of
`c2insc` all parse (no error, dates 100, 200, 150, 175), yet the record's
`time_from`/`time_to` stay NaN: the branch computes `min`/`max` into the
local variables `date_from`/`date_to`, which are never read. -/
theorem C2_dates_discarded_failing_run :
    (scanFrags c2insc).edcs = some (toL "EDCS-5", 5)
    ∧ parseDates (collectNums c2insc 5) = (false, [100, 200, 150, 175])
    ∧ resPublication (processInsc c2insc) = some (toL "Pub")
    ∧ resTimeFrom (processInsc c2insc) = some none
    ∧ resTimeTo (processInsc c2insc) = some none := by decide

/-- C6: a date token that fails integer parsing is claimed to force the
`"error"` publication sentinel at any identifier position.  For `c6insc`
(identifier at position 3, first date token `"xx"` unparseable) the record
is not aborted, but its publication stays `"Pub"`, not `"error"`: the
`error` flag set in the `k = 3` branch is never consulted.  The failing
time field stays NaN while the other fields are populated. -/
theorem C6_k3_parse_failure_publication_unchanged :
    pyInt (collapse (toL "xx")) = none
    ∧ resPublication (processInsc c6insc) = some (toL "Pub")
    ∧ resPublication (processInsc c6insc) ≠ some (toL "error")
    ∧ resTimeFrom (processInsc c6insc) = some none
    ∧ resTimeTo (processInsc c6insc) = some (some 180)
    ∧ resMaterial (processInsc c6insc) = some (toL "lapis") := by decide

/-! ## Claim C9 -/

/-- C9: when the latitude tag is present and every character after it is a
digit, `'.'` or `'-'`, the accumulation loop of `get_lat` runs off the end
of the string and the function returns Python `None` — neither a float
nor the NaN sentinel; likewise `get_long` with the longitude tag. -/
theorem C9_coordinate_scan_returns_none (s1 s2 : List Char) (p q : Nat)
    (h1 : findSub (toL "latitude=") s1 = some p)
    (h2 : ∀ c ∈ s1.drop (p + 9), (isdigitPy c || c = '.' || c = '-') = true)
    (h3 : findSub (toL "longitude=") s2 = some q)
    (h4 : ∀ c ∈ s2.drop (q + 10), (isdigitPy c || c = '.' || c = '-') = true) :
    get_lat s1 = .nothing ∧ get_long s2 = .nothing := by
  constructor
  · unfold get_lat
    rw [h1]
    exact coordScan_all_allowed _ h2 []
  · unfold get_long
    rw [h3]
    exact coordScan_all_allowed _ h4 []

theorem C9_coordinate_scan_returns_none_witness :
    get_lat (toL "xslatitude=41.9") = .nothing
    ∧ get_long (toL "longitude=-3.25") = .nothing :=
  C9_coordinate_scan_returns_none (toL "xslatitude=41.9") (toL "longitude=-3.25")
    2 0 (by decide) (by decide) (by decide) (by decide)

/-! ## Claim C5 -/

/-- C5 counterexample: the word `"Graia"` makes `get_toponyms` emit the
candidate `"Grensis"`, whose stem `"Gr"` has length 2 — not strictly
greater than 2 as claimed: the backward vowel loop never re-checks the
stem-length cutoff. -/
theorem C5_counterexample_grensis :
    toponymsOfWord (toL "Graia")
        = .ok [toL "Graiensis", toL "Graensis", toL "Grensis"]
    ∧ toL "Grensis" = toL "Gr" ++ toL "ensis"
    ∧ (toL "Gr").length ≤ 2 := by decide

/-- C5 amended: only the *first* candidate emitted for a word is
guaranteed a stem of length strictly greater than 2 (the `i ≤ 2` check
runs once, at the first vowel found from the end); the candidates emitted
by the backward vowel loop may be shorter. -/
theorem C5_first_candidate_stem_cutoff (w : List Char) (cs : List (List Char))
    (h : toponymsOfWord w = .ok cs) (hne : cs ≠ []) :
    ∃ n : Nat, 2 < n ∧ cs.head hne = w.take n ++ toL "ensis" := by
  cases hfv : findIdxA isVowel w.reverse with
  | none =>
    simp only [toponymsOfWord, hfv] at h
    cases h
    exact absurd rfl hne
  | some index =>
    simp only [toponymsOfWord, hfv] at h
    by_cases hi : w.length - index - 1 ≤ 2
    · rw [if_pos hi] at h
      cases h
      exact absurd rfl hne
    · rw [if_neg hi] at h
      cases hvs : vowelScan w (2 * w.length + 4) ((w.length - index - 1 : Nat) : Int) with
      | error e => rw [hvs] at h; cases h
      | ok rest =>
        rw [hvs] at h
        cases h
        exact ⟨w.length - index - 1, by omega, rfl⟩

theorem C5_first_candidate_stem_cutoff_witness :
    ∃ n : Nat, 2 < n
      ∧ [toL "Narbensis"].head (by decide) = (toL "Narbo").take n ++ toL "ensis" :=
  C5_first_candidate_stem_cutoff (toL "Narbo") [toL "Narbensis"] (by decide) (by decide)

/-! ## Claim C4 -/

/-- C4 counterexample: `search_toponyms` is claimed never to test a
candidate shorter than 6.  The row `c4trow` has the joined toponym cell
`"abc, xy"` (length 7), which passes the row guard; its length-2 candidate
`"xy"` is then tested and matches the record text `"wxyz"`, producing a
migrant record — although the only candidate of length ≥ 6 would be none
and `"abc"` does not match.  Under the claim the output would be empty. -/
theorem C4_counterexample_short_candidate_tested :
    (toL "xy").length < 6
    ∧ containsSub (toL "xy") (toL "wxyz") = true
    ∧ containsSub (toL "abc") (toL "wxyz") = false
    ∧ searchToponymsRaw c4edcs [c4trow] ≠ []
    ∧ (searchToponymsRaw c4edcs [c4trow]).map (fun m => (m.origo, m.migrant))
        = [(toL "P", 1)] := by decide

/-- C4 amended: the length-6 guard of `search_toponyms` applies to the
whole comma-joined toponym cell of a row, not to individual candidates: a
row whose cell is missing or shorter than 6 contributes no match, and in
a row whose cell has length ≥ 6 every comma-separated stripped candidate
is tested by substring containment regardless of its own length. -/
theorem C4_row_length_guard (edcs : List ERow) (t : TRow) :
    (t.toponyms = none → rowMigrants edcs t = [])
    ∧ (∀ s, t.toponyms = some s → s.length < 6 → rowMigrants edcs t = [])
    ∧ (∀ s top e text, t.toponyms = some s → ¬ s.length < 6 →
        top ∈ ((splitOnPred (· = ',') s).map pyStrip) → e ∈ edcs →
        e.cleantext = some text → containsSub top text = true →
        mkMig e t ∈ rowMigrants edcs t) := by
  refine ⟨?_, ?_, ?_⟩
  · intro h
    simp [rowMigrants, h]
  · intro s h hlt
    simp [rowMigrants, h, hlt]
  · intro s top e text h hlt htop he hct hcontains
    simp only [rowMigrants, h]
    rw [if_neg hlt, List.mem_flatMap]
    refine ⟨top, htop, List.mem_filterMap.2 ⟨e, he, ?_⟩⟩
    rw [hct]
    simp [hcontains]

theorem C4_row_length_guard_witness :
    rowMigrants c4edcs c4noneRow = []
    ∧ rowMigrants c4edcs c4shortRow = []
    ∧ mkMig { eid := toL "EDCS-9", cleantext := some (toL "wxyz"), rest := [] } c4trow
        ∈ rowMigrants c4edcs c4trow :=
  ⟨(C4_row_length_guard c4edcs c4noneRow).1 (by decide),
   (C4_row_length_guard c4edcs c4shortRow).2.1 (toL "abcd") (by decide) (by decide),
   (C4_row_length_guard c4edcs c4trow).2.2 (toL "abc, xy") (toL "xy")
     { eid := toL "EDCS-9", cleantext := some (toL "wxyz"), rest := [] } (toL "wxyz")
     (by decide) (by decide) (by decide) (by decide) (by decide) (by decide)⟩

/-! ## Claim C10 -/

/-- C10: when no fragment equals a known province name but some
`|`-separated part of a fragment matches after stripping,
`search_province` returns the entire original fragment (separator and
non-matching parts included), not the stripped part. -/
theorem C10_search_province_returns_whole_fragment (insc : List (List Char))
    (h1 : ∀ f ∈ insc, province_list.contains f = false)
    (h2 : ∃ f ∈ insc, (f.contains '|'
          && (splitOnPred (· = '|') f).any fun part =>
               province_list.contains (pyStrip part)) = true) :
    ∃ f ∈ insc, search_province insc = f
      ∧ (f.contains '|'
          && (splitOnPred (· = '|') f).any fun part =>
               province_list.contains (pyStrip part)) = true
      ∧ province_list.contains f = false := by
  induction insc with
  | nil => simp at h2
  | cons a rest ih =>
    have ha : province_list.contains a = false := h1 a (List.mem_cons_self a rest)
    by_cases hbar : (a.contains '|'
        && (splitOnPred (· = '|') a).any fun part =>
             province_list.contains (pyStrip part)) = true
    · refine ⟨a, List.mem_cons_self a rest, ?_, hbar, ha⟩
      show search_province (a :: rest) = a
      simp only [search_province]
      rw [if_neg (by rw [ha]; exact Bool.false_ne_true), if_pos hbar]
    · obtain ⟨f, hf, hmatch⟩ := h2
      have hf' : f ∈ rest := by
        rcases List.mem_cons.1 hf with rfl | hf'
        · exact absurd hmatch hbar
        · exact hf'
      obtain ⟨g, hg, hsp, hm, hnp⟩ :=
        ih (fun x hx => h1 x (List.mem_cons_of_mem a hx)) ⟨f, hf', hmatch⟩
      refine ⟨g, List.mem_cons_of_mem a hg, ?_, hm, hnp⟩
      rw [← hsp]
      show search_province (a :: rest) = search_province rest
      simp only [search_province]
      rw [if_neg (by rw [ha]; exact Bool.false_ne_true), if_neg hbar]

theorem C10_search_province_witness :
    ∃ f ∈ [toL "foo", toL "Roma | castra"],
      search_province [toL "foo", toL "Roma | castra"] = f
      ∧ (f.contains '|'
          && (splitOnPred (· = '|') f).any fun part =>
               province_list.contains (pyStrip part)) = true
      ∧ province_list.contains f = false :=
  C10_search_province_returns_whole_fragment [toL "foo", toL "Roma | castra"]
    (by decide) (by decide)

/-! ## Claim C7 -/

theorem collectOpensAux_ge (ch : Char) (text : List Char) :
    ∀ (fuel start : Nat), ∀ o ∈ collectOpensAux ch text fuel start, start ≤ o := by
  intro fuel
  induction fuel with
  | zero => intro start o ho; simp [collectOpensAux] at ho
  | succ n ih =>
    intro start o ho
    simp only [collectOpensAux] at ho
    cases hf : findFrom (· = ch) text start with
    | none => rw [hf] at ho; simp at ho
    | some m =>
      simp only [hf] at ho
      have hm : start ≤ m := by
        simp only [findFrom, Option.map_eq_some'] at hf
        obtain ⟨k, _, rfl⟩ := hf
        omega
      by_cases hlt : m + 1 < text.length
      · rw [if_pos hlt] at ho
        rcases List.mem_cons.1 ho with rfl | ho'
        · exact hm
        · have := ih (m + 1) o ho'
          omega
      · rw [if_neg hlt] at ho; simp at ho

theorem emitRange_zero_len (text : List Char) : emitRange text 0 text.length = text := by
  simp [emitRange]

theorem ctFold_all_unclosed (text : List Char) :
    ∀ (triples : List (Nat × Option Nat × Option Nat)),
      (∀ t ∈ triples, t.2.2 = none) →
      ∀ closing : Int, (triples = [] → closing = 0) →
      ∃ pre, ctFold text triples closing = pre ++ text := by
  intro triples
  induction triples with
  | nil =>
    intro _ closing hz
    refine ⟨[], ?_⟩
    rw [hz rfl]
    simpa using emitRange_zero_len text
  | cons t rest ih =>
    intro hcl closing _
    obtain ⟨o, eq, cl⟩ := t
    have hclt : cl = none := hcl (o, eq, cl) (List.mem_cons_self _ _)
    subst hclt
    obtain ⟨pre, hpre⟩ := ih (fun u hu => hcl u (List.mem_cons_of_mem _ hu))
      (optToPy none + 1) (fun _ => by decide)
    refine ⟨emitRange text closing o
      ++ (emitRange text ((o : Int) + 1) (optToPy eq)).map Char.toLower ++ pre, ?_⟩
    simp [ctFold, hpre]

/-- C7 counterexample: on `"ab<CD=ef"` (opening marker with a separator
but no closing marker anywhere after it) the claimed resolution — treat
the remainder as the span body, i.e. replace it by the lowercased text
between `<` and `=` — would give `"abcd"`.  The code instead stores `-1`
as the closing position, so the tail pass restarts at index 0 and the
result is `"abcd"` followed by a copy of the whole input. -/
theorem C7_counterexample_unmatched_marker :
    correct_text (toL "ab<CD=ef") = toL "abcdab<CD=ef"
    ∧ toL "abcdab<CD=ef" ≠ toL "abcd" := by decide

/-- C7 amended: on an input containing `'<'` with no `'>'` at or after the
first `'<'`, `correct_text` raises no exception (the embedding is total
on this path), but the unmatched span is not resolved as extending to the
end of the string: every recorded closing position is `-1`, the final
copy restarts at index 0, and the entire original string — markers and
original reading included — reappears as a suffix of the output. -/
theorem C7_unmatched_marker_appends_whole_text (text : List Char) (p : Nat)
    (hopen : findFrom (· = '<') text 0 = some p)
    (hclose : findFrom (· = '>') text p = none) :
    ∃ pre, correct_text text = pre ++ text := by
  have hco : collectOpens '<' text
      = if p + 1 < text.length then p :: collectOpensAux '<' text text.length (p + 1)
        else [] := by
    simp only [collectOpens, collectOpensAux, hopen]
  have hall : ∀ t ∈ (collectOpens '<' text).map
      (fun o => (o, findFrom (· = '=') text o, findFrom (· = '>') text o)),
      t.2.2 = none := by
    intro t ht
    obtain ⟨o, ho, rfl⟩ := List.mem_map.1 ht
    rw [hco] at ho
    by_cases hp1 : p + 1 < text.length
    · rw [if_pos hp1] at ho
      rcases List.mem_cons.1 ho with rfl | ho'
      · exact findFrom_none_mono _ text hclose le_rfl
      · have hge := collectOpensAux_ge '<' text text.length (p + 1) o ho'
        exact findFrom_none_mono _ text hclose (by omega)
    · rw [if_neg hp1] at ho; simp at ho
  unfold correct_text
  exact ctFold_all_unclosed text _ hall 0 (fun _ => rfl)

theorem C7_unmatched_marker_witness :
    ∃ pre, correct_text (toL "ab<CD=ef") = pre ++ toL "ab<CD=ef" :=
  C7_unmatched_marker_appends_whole_text (toL "ab<CD=ef") 2 (by decide) (by decide)

/-! ## Claim C3 -/

theorem pyGetI_mem {l : List Char} {i : Int} {c : Char} (h : pyGetI l i = some c) :
    c ∈ l := by
  unfold pyGetI at h
  split at h
  · exact List.getElem?_mem h
  · split at h
    · exact List.getElem?_mem h
    · cases h

theorem missing_of_no_bracket {text : List Char} (h : '[' ∉ text) (i : Nat) :
    missing text i = false := by
  have hb : ∀ j : Int, (pyGetI text j == some '[') = false := by
    intro j
    cases hg : pyGetI text j with
    | none => rfl
    | some d =>
      apply beq_eq_false_iff_ne.2
      intro he
      injection he with he'
      exact h (he' ▸ pyGetI_mem hg)
  unfold missing
  split
  · simp only [hb]
    simp
  · rfl

theorem filterGo_eq_filter {text : List Char} (h : '[' ∉ text) :
    ∀ (l : List Char) (i : Nat),
      filterGo text l i = l.filter fun c => isspacePy c || isalphaPy c := by
  intro l
  induction l with
  | nil => intro i; rfl
  | cons c rest ih =>
    intro i
    simp only [filterGo, missing_of_no_bracket h i, Bool.or_false, ih (i + 1),
      List.filter_cons]
    by_cases hc : (isspacePy c || isalphaPy c) = true
    · simp [hc]
    · simp [hc]

theorem filterGo_id_of_all {text : List Char} :
    ∀ (l : List Char), (∀ c ∈ l, (isspacePy c || isalphaPy c) = true) →
      ∀ i, filterGo text l i = l := by
  intro l
  induction l with
  | nil => intro _ _; rfl
  | cons c rest ih =>
    intro h i
    have hc := h c (List.mem_cons_self _ _)
    have hcond : (isspacePy c || isalphaPy c || missing text i) = true := by
      simp [hc]
    simp only [filterGo, hcond, if_true]
    rw [ih (fun d hd => h d (List.mem_cons_of_mem _ hd)) (i + 1)]
    rfl

theorem pySplit_cons_space {c : Char} (hc : isspacePy c = true) (rest : List Char) :
    pySplit (c :: rest) = pySplit rest := by
  simp [pySplit, hc]

theorem pySplit_single {c : Char} (hc : isspacePy c = false) :
    pySplit [c] = [[c]] := by
  simp [pySplit, hc]

theorem pySplit_cons_cons_space {c d : Char} (hc : isspacePy c = false)
    (hd : isspacePy d = true) (rest : List Char) :
    pySplit (c :: d :: rest) = [c] :: pySplit (d :: rest) := by
  simp [pySplit, hc, hd]

theorem pySplit_cons_cons_nospace {c d : Char} (hc : isspacePy c = false)
    (hd : isspacePy d = false) (rest : List Char) :
    pySplit (c :: d :: rest)
      = match pySplit (d :: rest) with
        | [] => [[c]]
        | w :: ws => (c :: w) :: ws := by
  simp [pySplit, hc, hd]

theorem pySplit_props : ∀ (s : List Char), ∀ w ∈ pySplit s,
    w ≠ [] ∧ (∀ c ∈ w, isspacePy c = false) ∧ (∀ c ∈ w, c ∈ s) := by
  intro s
  induction s with
  | nil => simp [pySplit]
  | cons c rest ih =>
    intro w hw
    by_cases hcb : isspacePy c = true
    · rw [pySplit_cons_space hcb] at hw
      obtain ⟨hne, hsp, hmem⟩ := ih w hw
      exact ⟨hne, hsp, fun d hd => List.mem_cons_of_mem _ (hmem d hd)⟩
    · have hc : isspacePy c = false := Bool.eq_false_iff.2 hcb
      cases rest with
      | nil =>
        rw [pySplit_single hc] at hw
        simp only [List.mem_singleton] at hw
        subst hw
        refine ⟨by simp, ?_, ?_⟩
        · intro d hd; simp only [List.mem_singleton] at hd; subst hd; exact hc
        · intro d hd; simp only [List.mem_singleton] at hd; subst hd; simp
      | cons d rest' =>
        by_cases hdb : isspacePy d = true
        · rw [pySplit_cons_cons_space hc hdb] at hw
          rcases List.mem_cons.1 hw with rfl | hw'
          · refine ⟨by simp, ?_, ?_⟩
            · intro e he; simp only [List.mem_singleton] at he; subst he; exact hc
            · intro e he; simp only [List.mem_singleton] at he; subst he; simp
          · obtain ⟨hne, hsp, hmem⟩ := ih w hw'
            exact ⟨hne, hsp, fun e he => List.mem_cons_of_mem _ (hmem e he)⟩
        · have hd : isspacePy d = false := Bool.eq_false_iff.2 hdb
          cases hrec : pySplit (d :: rest') with
          | nil =>
            rw [pySplit_cons_cons_nospace hc hd, hrec] at hw
            simp only [List.mem_singleton] at hw
            subst hw
            refine ⟨by simp, ?_, ?_⟩
            · intro e he; simp only [List.mem_singleton] at he; subst he; exact hc
            · intro e he; simp only [List.mem_singleton] at he; subst he; simp
          | cons w0 ws =>
            rw [pySplit_cons_cons_nospace hc hd, hrec] at hw
            rcases List.mem_cons.1 hw with rfl | hw'
            · obtain ⟨_, hsp0, hmem0⟩ := ih w0 (by rw [hrec]; exact List.mem_cons_self _ _)
              refine ⟨by simp, ?_, ?_⟩
              · intro e he
                rcases List.mem_cons.1 he with rfl | he'
                · exact hc
                · exact hsp0 e he'
              · intro e he
                rcases List.mem_cons.1 he with rfl | he'
                · simp
                · exact List.mem_cons_of_mem _ (hmem0 e he')
            · obtain ⟨hne, hsp, hmem⟩ := ih w (by rw [hrec]; exact List.mem_cons_of_mem _ hw')
              exact ⟨hne, hsp, fun e he => List.mem_cons_of_mem _ (hmem e he)⟩

theorem pySplit_nospace_word : ∀ (w : List Char), w ≠ [] →
    (∀ c ∈ w, isspacePy c = false) → pySplit w = [w] := by
  intro w
  induction w with
  | nil => intro h; exact absurd rfl h
  | cons c rest ih =>
    intro _ hsp
    have hc : isspacePy c = false := hsp c (List.mem_cons_self _ _)
    cases rest with
    | nil => exact pySplit_single hc
    | cons d rest' =>
      have hd : isspacePy d = false :=
        hsp d (List.mem_cons_of_mem _ (List.mem_cons_self _ _))
      rw [pySplit_cons_cons_nospace hc hd,
        ih (by simp) (fun e he => hsp e (List.mem_cons_of_mem _ he))]

theorem pySplit_append_space : ∀ (w t : List Char), w ≠ [] →
    (∀ c ∈ w, isspacePy c = false) →
    pySplit (w ++ ' ' :: t) = w :: pySplit t := by
  intro w
  induction w with
  | nil => intro t h; exact absurd rfl h
  | cons c rest ih =>
    intro t _ hsp
    have hc : isspacePy c = false := hsp c (List.mem_cons_self _ _)
    cases rest with
    | nil =>
      have hw : isspacePy ' ' = true := by decide
      rw [show ([c] ++ ' ' :: t) = c :: ' ' :: t from rfl,
        pySplit_cons_cons_space hc hw, pySplit_cons_space hw]
    | cons d rest' =>
      have hd : isspacePy d = false :=
        hsp d (List.mem_cons_of_mem _ (List.mem_cons_self _ _))
      have hshape : (c :: d :: rest') ++ ' ' :: t = c :: d :: (rest' ++ ' ' :: t) := by
        simp
      rw [hshape, pySplit_cons_cons_nospace hc hd,
        show d :: (rest' ++ ' ' :: t) = (d :: rest') ++ ' ' :: t from rfl,
        ih t (by simp) (fun e he => hsp e (List.mem_cons_of_mem _ he))]

theorem joinWith_space_split : ∀ (ws : List (List Char)),
    (∀ w ∈ ws, w ≠ [] ∧ ∀ c ∈ w, isspacePy c = false) →
    pySplit (joinWith [' '] ws) = ws := by
  intro ws
  induction ws with
  | nil => intro _; rfl
  | cons w ws' ih =>
    intro h
    obtain ⟨hne, hsp⟩ := h w (List.mem_cons_self _ _)
    cases ws' with
    | nil => simpa [joinWith] using pySplit_nospace_word w hne hsp
    | cons w2 ws'' =>
      have hjoin : joinWith [' '] (w :: w2 :: ws'')
          = w ++ ' ' :: joinWith [' '] (w2 :: ws'') := by
        simp [joinWith]
      rw [hjoin, pySplit_append_space w _ hne hsp,
        ih (fun u hu => h u (List.mem_cons_of_mem _ hu))]

theorem mem_joinWith_space : ∀ (ws : List (List Char)) (c : Char),
    c ∈ joinWith [' '] ws → c = ' ' ∨ ∃ w ∈ ws, c ∈ w := by
  intro ws
  induction ws with
  | nil => intro c hc; simp [joinWith] at hc
  | cons w ws' ih =>
    intro c hc
    cases ws' with
    | nil =>
      right
      exact ⟨w, List.mem_cons_self _ _, by simpa [joinWith] using hc⟩
    | cons w2 ws'' =>
      rw [show joinWith [' '] (w :: w2 :: ws'')
          = w ++ ' ' :: joinWith [' '] (w2 :: ws'') by simp [joinWith]] at hc
      rcases List.mem_append.1 hc with hin | h2
      · right; exact ⟨w, List.mem_cons_self _ _, hin⟩
      · rcases List.mem_cons.1 h2 with rfl | h3
        · left; rfl
        · rcases ih c h3 with hsp | ⟨u, hu, hcu⟩
          · left; exact hsp
          · right; exact ⟨u, List.mem_cons_of_mem _ hu, hcu⟩

theorem mem_collapse {s : List Char} {c : Char} (h : c ∈ collapse s) :
    c = ' ' ∨ c ∈ s := by
  rcases mem_joinWith_space (pySplit s) c h with h1 | ⟨w, hw, hcw⟩
  · left; exact h1
  · right; exact (pySplit_props s w hw).2.2 c hcw

theorem collapse_collapse (s : List Char) : collapse (collapse s) = collapse s := by
  unfold collapse
  rw [joinWith_space_split (pySplit s) (fun w hw =>
    ⟨(pySplit_props s w hw).1, (pySplit_props s w hw).2.1⟩)]

theorem get_cleantext_no_markers {s : List Char}
    (h1 : '=' ∉ s) (h2 : '{' ∉ s) (h3 : '[' ∉ s) :
    get_cleantext s = collapse (s.filter fun c => isspacePy c || isalphaPy c) := by
  have e1 : findIdxA (· = '=') s = none :=
    (findIdxA_eq_none_iff _ s).2 fun c hc => decide_eq_false fun hce => h1 (hce ▸ hc)
  have e2 : findIdxA (· = '{') s = none :=
    (findIdxA_eq_none_iff _ s).2 fun c hc => decide_eq_false fun hce => h2 (hce ▸ hc)
  simp only [get_cleantext, e1, e2, Option.isSome_none, Bool.false_eq_true, if_false]
  rw [filterKeep, filterGo_eq_filter h3]

theorem mem_emitRange {text : List Char} {a b : Int} {c : Char}
    (h : c ∈ emitRange text a b) : c ∈ text :=
  List.drop_subset _ _ (List.take_subset _ _ h)

theorem mem_ctFold {text : List Char} :
    ∀ (triples : List (Nat × Option Nat × Option Nat)) (closing : Int) (c : Char),
      c ∈ ctFold text triples closing →
      c ∈ text ∨ ∃ d ∈ text, c = Char.toLower d := by
  intro triples
  induction triples with
  | nil =>
    intro closing c hc
    left; exact mem_emitRange hc
  | cons t rest ih =>
    obtain ⟨o, eq, cl⟩ := t
    intro closing c hc
    simp only [ctFold, List.mem_append] at hc
    rcases hc with (h1 | h2) | h3
    · left; exact mem_emitRange h1
    · obtain ⟨d, hd, rfl⟩ := List.mem_map.1 h2
      right; exact ⟨d, mem_emitRange hd, rfl⟩
    · exact ih _ c h3

theorem mem_rsFold {text : List Char} :
    ∀ (pairs : List (Nat × Option Nat)) (closing : Int) (c : Char),
      c ∈ rsFold text pairs closing → c ∈ text := by
  intro pairs
  induction pairs with
  | nil =>
    intro closing c hc
    exact mem_emitRange hc
  | cons t rest ih =>
    obtain ⟨o, cl⟩ := t
    intro closing c hc
    simp only [rsFold, List.mem_append] at hc
    rcases hc with h1 | h2
    · exact mem_emitRange h1
    · exact ih _ c h2

theorem toLower_eq_bracket {c : Char} (h : Char.toLower c = '[') : c = '[' := by
  simp only [Char.toLower] at h
  split at h
  · rename_i hc
    obtain ⟨h1, h2⟩ := hc
    exfalso
    generalize hg : Char.toNat c = n at h h1 h2
    interval_cases n <;> exact absurd h (by decide)
  · exact h

theorem correct_text_no_bracket {text : List Char} (h : '[' ∉ text) :
    '[' ∉ correct_text text := by
  intro hmem
  rcases mem_ctFold _ _ _ hmem with h1 | ⟨d, hd, hdl⟩
  · exact h h1
  · exact h (toLower_eq_bracket hdl.symm ▸ hd)

theorem remove_superficial_no_bracket {text : List Char} (h : '[' ∉ text) :
    '[' ∉ remove_superficial_letters text := by
  intro hmem
  exact h (mem_rsFold _ _ _ hmem)

theorem get_cleantext_eq_filter_of_no_bracket {t : List Char} (h : '[' ∉ t) :
    ∃ u : List Char, '[' ∉ u
      ∧ get_cleantext t = collapse (u.filter fun c => isspacePy c || isalphaPy c) := by
  have h1 : '[' ∉ (if (findIdxA (· = '=') t).isSome then correct_text t else t) := by
    split
    · exact correct_text_no_bracket h
    · exact h
  have h2 : '[' ∉ (if (findIdxA (· = '{') t).isSome then
      remove_superficial_letters
        (if (findIdxA (· = '=') t).isSome then correct_text t else t)
      else (if (findIdxA (· = '=') t).isSome then correct_text t else t)) := by
    split
    · exact remove_superficial_no_bracket h1
    · exact h1
  refine ⟨_, h2, ?_⟩
  simp only [get_cleantext]
  rw [filterKeep, filterGo_eq_filter h2]

/-- C3 counterexample: on `"ab[3]"` — a string with no correction or
superficial-letter markers, whose only annotation is an illegible-letter
placeholder at the very end — `get_cleantext` keeps the `'['` (the window
check sees the full placeholder) but drops `'3'` and `']'` (the guard
`i < len(text) - 2` fails for them), producing `"ab["`; a second
application then drops the now-orphaned `'['`, so the normalizer is not
idempotent on this input. -/
theorem C3_counterexample_trailing_placeholder :
    get_cleantext (toL "ab[3]") = toL "ab["
    ∧ get_cleantext (get_cleantext (toL "ab[3]")) = toL "ab"
    ∧ get_cleantext (get_cleantext (toL "ab[3]")) ≠ get_cleantext (toL "ab[3]") := by
  decide

/-- C3 amended: `get_cleantext` is idempotent on every string containing
no `'['` character — correction and superficial-letter markers are
allowed, since the span removers emit only (possibly lowercased)
characters of their input and so never introduce a `'['`; without a `'['`
every `missing` window is false, the first pass outputs alphabetic words
separated by single spaces, and the second pass leaves that unchanged.
Only an illegible-letter placeholder (which can be truncated at the end
of the string, as in the counterexample) breaks idempotence. -/
theorem C3_get_cleantext_idempotent_no_brackets (s : List Char)
    (h : '[' ∉ s) :
    get_cleantext (get_cleantext s) = get_cleantext s := by
  obtain ⟨u, hu, heq⟩ := get_cleantext_eq_filter_of_no_bracket h
  rw [heq]
  set o := collapse (u.filter fun c => isspacePy c || isalphaPy c) with ho
  have hchar : ∀ c ∈ o, (isspacePy c || isalphaPy c) = true := by
    intro c hc
    rcases mem_collapse hc with rfl | hin
    · decide
    · exact (List.mem_filter.1 hin).2
  have h1' : '=' ∉ o := fun hc => absurd (hchar _ hc) (by decide)
  have h2' : '{' ∉ o := fun hc => absurd (hchar _ hc) (by decide)
  have h3' : '[' ∉ o := fun hc => absurd (hchar _ hc) (by decide)
  rw [get_cleantext_no_markers h1' h2' h3', List.filter_eq_self.2 hchar, ho]
  exact collapse_collapse _

theorem C3_idempotent_witness :
    get_cleantext (get_cleantext (toL "AN<TIQVVS=tiqvvs>"))
      = get_cleantext (toL "AN<TIQVVS=tiqvvs>") :=
  C3_get_cleantext_idempotent_no_brackets (toL "AN<TIQVVS=tiqvvs>") (by decide)

/-! ## Claim C8 -/

/-- C8 counterexample: in the example fragment list the final fragment
`"vir"` is *not* in the keyword vocabulary (the list contains `"viri"`,
not `"vir"`), so the record's keywords field is `"n/a"`, not `"vir"` as
claimed. -/
theorem C8_counterexample_keywords :
    resKeywords (processInsc c8insc) = some (toL "n/a")
    ∧ resKeywords (processInsc c8insc) ≠ some (toL "vir") := by decide

theorem ok_of_ite_skip {C : Prop} [Decidable C] {rec r : Insc}
    (h : (if C then ExtractResult.skipped else ExtractResult.ok rec)
      = ExtractResult.ok r) : rec = r := by
  by_cases hc : C
  · rw [if_pos hc] at h; cases h
  · rw [if_neg hc] at h; injection h

/-- C8 amended: for the example fragment list the extractor produces
publication `"PubX"`, `time_from = 120`, `time_to = 180` and keywords
`"n/a"` (the keyword vocabulary contains `"viri"` but not `"vir"`); and in
general, for every fragment list whose identifier sits at position 3 and
whose two date fragments parse as integers, the produced record has
publication = fragment 0, `time_from` = int(fragment 1) and `time_to` =
int(fragment 2). -/
theorem C8_identifier_at_three :
    (resPublication (processInsc c8insc) = some (toL "PubX")
      ∧ resTimeFrom (processInsc c8insc) = some (some 120)
      ∧ resTimeTo (processInsc c8insc) = some (some 180)
      ∧ resKeywords (processInsc c8insc) = some (toL "n/a"))
    ∧ ∀ (insc : List (List Char)) (r : Insc) (eid p f1 f2 : List Char) (t1 t2 : Int),
        processInsc insc = .ok r →
        (scanFrags insc).edcs = some (eid, 3) →
        pyIdx insc 0 = some p → pyIdx insc 1 = some f1 → pyIdx insc 2 = some f2 →
        pyInt (collapse f1) = some t1 → pyInt (collapse f2) = some t2 →
        r.publication = p ∧ r.time_from = some t1 ∧ r.time_to = some t2 := by
  constructor
  · exact ⟨by decide, by decide, by decide, by decide⟩
  · intro insc r eid p f1 f2 t1 t2 h hscan h0 h1f h2f ht1 ht2
    have hds : dateStage insc 3 = .ok (p, some t1, some t2) := by
      simp only [dateStage]
      rw [if_neg (by decide), if_pos trivial]
      simp only [h0, h1f, h2f]
      rw [ht1, ht2]
    simp only [processInsc, hscan, hds] at h
    split at h
    · cases h
    · split at h
      · cases h
      · have hrec := ok_of_ite_skip h
        subst hrec
        exact ⟨rfl, rfl, rfl⟩

theorem C8_identifier_at_three_witness :
    processInsc c8winsc = .ok c8witrec
    ∧ c8witrec.publication = toL "P"
    ∧ c8witrec.time_from = some 1
    ∧ c8witrec.time_to = some 2 :=
  ⟨by decide,
   C8_identifier_at_three.2 c8winsc c8witrec (toL "EDCS-7") (toL "P") (toL "1")
     (toL "2") 1 2 (by decide) (by decide) (by decide) (by decide) (by decide)
     (by decide) (by decide)⟩
